import Mathlib

/-!
# Agent Trust Establishment core — verification development

A shallow embedding of the Agent Trust Establishment core of the
quantum-nlp-platform repository: the Fingerprint Generator, the Validator
Registry, the Byzantine consensus engine, the Transparency Log (Merkle
tree, hash chain, signed tree heads) and the Trust Score Calculator.

The repository ships only the service entrypoints (`cmd/main.go` route
tables) for these services; the `internal/services` packages that
implement them are not part of the source tree.  Every definition below
whose doc comment starts with "Modelled from the spec:" therefore embeds
the component faithfully from the specification's own words; route
tables and handler wiring are embedded from the `cmd/main.go` sources
that are present.

Cryptographic digests are modelled symbolically: a free inductive type
whose distinct constructors are the domain-separated hash computations
of the system.  Constructor injectivity is the idealisation of
collision resistance, and distinct constructors are exactly the
domain-separation guarantee.
-/

namespace QLAFS

/-- Modelled from the spec: a fixed-width cryptographic digest.  Each
constructor is one domain-separated use of the hash function in the
system: `bytes` digests a raw byte string, `comp4` digests the
concatenation of the four fingerprint sub-hashes in their fixed order,
`chainH` digests `previous entryHash ‖ serialized entry payload`,
`leafH` and `nodeH` are the domain-separated Merkle leaf and internal
node hashes. -/
inductive Digest : Type where
  | bytes : List Nat → Digest
  | comp4 : Digest → Digest → Digest → Digest → Digest
  | chainH : Digest → List Nat → Digest
  | leafH : Digest → Digest
  | nodeH : Digest → Digest → Digest
  deriving DecidableEq, Repr

/-- Modelled from the spec's error taxonomy (§7): `EvidenceIncomplete`,
`ConsensusTimeout`, `Equivocation`, `LogSealed`,
`ProofVerificationFailed`. -/
inductive QlafsError : Type where
  | evidenceIncomplete : QlafsError
  | consensusTimeout : QlafsError
  | equivocation : QlafsError
  | logSealed : QlafsError
  | proofVerificationFailed : QlafsError
  deriving DecidableEq, Repr

/-- Modelled from the spec: the four independent evidence classes
(static, behavioral, cognitive, compositional) out of which a
fingerprint is derived.  A class whose field is `none` is absent, which
is exactly the condition under which its digester fails with
`EvidenceIncomplete`. -/
structure Evidence where
  staticEv : Option (List Nat)
  behavioralEv : Option (List Nat)
  cognitiveEv : Option (List Nat)
  compositionalEv : Option (List Nat)
  deriving DecidableEq, Repr

/-- Modelled from the spec: an immutable `AgentFingerprint` value:
`subjectId`, the four sub-hashes, `compositeHash`, a `version` and a
`generatedAt` timestamp. -/
structure AgentFingerprint where
  subjectId : String
  staticHash : Digest
  behavioralHash : Digest
  cognitiveHash : Digest
  compositionalHash : Digest
  compositeHash : Digest
  version : Nat
  generatedAt : Nat
  deriving DecidableEq, Repr

/-- Modelled from the spec: one evidence digester — polymorphic over the
evidence class it reads; it fails with `EvidenceIncomplete` if its
required evidence fields are absent, and otherwise produces the
fixed-width digest of the evidence. -/
def digestEvidence (ev : Option (List Nat)) : Except QlafsError Digest :=
  match ev with
  | none => .error .evidenceIncomplete
  | some bs => .ok (.bytes bs)

/-- Modelled from the spec: `compositeHash` = digest(concatenation of
the four sub-hashes in a fixed order). -/
def compositeOf (s b c k : Digest) : Digest := .comp4 s b c k

/-- Modelled from the spec: `Generate(subjectId, evidence) →
AgentFingerprint | FingerprintError`.  The four sub-hash computations
run independently; if any digester fails the whole operation fails
atomically and no fingerprint is returned.  `version` and `generatedAt`
are caller-supplied bookkeeping (persistence is the caller's
responsibility); the identity content of the result depends only on
`(subjectId, evidence)`. -/
def Generate (subjectId : String) (e : Evidence) (version generatedAt : Nat) :
    Except QlafsError AgentFingerprint := do
  let s ← digestEvidence e.staticEv
  let b ← digestEvidence e.behavioralEv
  let c ← digestEvidence e.cognitiveEv
  let k ← digestEvidence e.compositionalEv
  pure { subjectId := subjectId
         staticHash := s
         behavioralHash := b
         cognitiveHash := c
         compositionalHash := k
         compositeHash := compositeOf s b c k
         version := version
         generatedAt := generatedAt }

/-- The identity-relevant content of a fingerprint: subject, the four
sub-hashes and the composite hash — everything except the `version` and
`generatedAt` bookkeeping. -/
def fingerprintCore (fp : AgentFingerprint) :
    String × Digest × Digest × Digest × Digest × Digest :=
  (fp.subjectId, fp.staticHash, fp.behavioralHash, fp.cognitiveHash,
   fp.compositionalHash, fp.compositeHash)

/-! ## Consensus engine -/

abbrev ValidatorId := Nat

/-- Modelled from the spec: the two possible finalized outcomes of a
consensus proposal. -/
inductive Outcome : Type where
  | accept : Outcome
  | reject : Outcome
  deriving DecidableEq, Repr

/-- Modelled from the spec: the consensus state machine phases
`idle → pre-prepare → prepare → commit → {finalized-accept |
finalized-reject | aborted}`. -/
inductive Phase : Type where
  | idle : Phase
  | prePrepare : Phase
  | prepare : Phase
  | commit : Phase
  | finalized : Outcome → Phase
  | aborted : Phase
  deriving DecidableEq, Repr

/-- Modelled from the spec: the quorum threshold `2f+1` derived from the
configured fault tolerance `f`. -/
def quorumThreshold (f : Nat) : Nat := 2 * f + 1

/-- Modelled from the spec: a quorum certificate for outcome `o` over a
round's commit votes — a set of at least `2f+1` active validators whose
(unique, per validator per round) commit vote matches `o`. -/
def IsQuorumCert (active : Finset ValidatorId) (f : Nat)
    (commitVote : ValidatorId → Option Outcome) (o : Outcome)
    (S : Finset ValidatorId) : Prop :=
  S ⊆ active ∧ quorumThreshold f ≤ S.card ∧ ∀ v ∈ S, commitVote v = some o

/-- Modelled from the spec: a `ConsensusProposal` — `proposalId`, the
fingerprint under review, `round` counter, `phase`, the commit votes of
the current round (one per validator, last-write-wins), the write-once
`finalizedOutcome`, and the `quorumCertificate` once finalized. -/
structure ConsensusProposal where
  proposalId : String
  fingerprint : AgentFingerprint
  round : Nat
  phase : Phase
  commitVotes : List (ValidatorId × Outcome)
  finalizedOutcome : Option Outcome
  quorumCertificate : Option (List (ValidatorId × Outcome))
  deriving DecidableEq, Repr

/-- Count of votes in a vote list matching outcome `o`. -/
def countMatching (votes : List (ValidatorId × Outcome)) (o : Outcome) : Nat :=
  (votes.filter (fun v => v.2 = o)).length

/-- Modelled from the spec: a validator in the `prepare` phase advances
to `commit` only after observing at least `2f+1` matching prepare
votes; otherwise it stays in `prepare`. -/
def advanceFromPrepare (f : Nat) (prepareVotes : List (ValidatorId × Outcome))
    (o : Outcome) : Phase :=
  if quorumThreshold f ≤ countMatching prepareVotes o then .commit else .prepare

/-- Modelled from the spec: the write-once check on the finalized
outcome — a commit of outcome `o` takes effect only if no outcome has
been finalized yet; the certificate recorded is the set of matching
commit votes observed. -/
def commitOutcome (p : ConsensusProposal) (o : Outcome)
    (cert : List (ValidatorId × Outcome)) : ConsensusProposal :=
  match p.finalizedOutcome with
  | some _ => p
  | none =>
      { p with finalizedOutcome := some o
               phase := .finalized o
               quorumCertificate := some cert }

/-- Modelled from the spec: a single commit vote arrives.  The vote is
recorded; finalization occurs the instant the observing validator holds
`2f+1` matching commit votes: the quorum certificate is the set of those
votes. -/
def observeCommitVote (f : Nat) (p : ConsensusProposal)
    (v : ValidatorId × Outcome) : ConsensusProposal :=
  let p' := { p with commitVotes := p.commitVotes ++ [v] }
  let matching := p'.commitVotes.filter (fun w => w.2 = v.2)
  if quorumThreshold f ≤ matching.length then
    commitOutcome p' v.2 matching
  else p'

/-- Fold a stream of commit votes, finalizing at the first quorum. -/
def observeCommitVotes (f : Nat) (p : ConsensusProposal)
    (votes : List (ValidatorId × Outcome)) : ConsensusProposal :=
  votes.foldl (observeCommitVote f) p

/-- Modelled from the spec: the engine configuration — fault tolerance
`f`, the maximum number of view changes before a proposal aborts, and
the per-phase timeout bound. -/
structure ConsensusConfig where
  f : Nat
  maxViewChanges : Nat
  phaseTimeoutMillis : Nat
  deriving DecidableEq, Repr

/-- Modelled from the spec: the per-proposal engine state driving one
proposal: the active-set snapshot taken at round start, the round and
view-change counters, the phase, the set of suspected validators, and
the error reported to the caller (if any). -/
structure EngineState where
  activeSet : List ValidatorId
  round : Nat
  viewChanges : Nat
  phase : Phase
  suspected : List ValidatorId
  reported : Option QlafsError
  deriving DecidableEq, Repr

/-- Modelled from the spec: the designated round leader, selected by
`round mod |ActiveSet|`, rotating deterministically. -/
def leaderOf (s : EngineState) : Option ValidatorId :=
  s.activeSet[s.round % s.activeSet.length]?

/-- Modelled from the spec: the view change triggered by a phase
timeout — the current leader is marked suspected, the round counter is
incremented (which rotates the leader), the round restarts from
pre-prepare; a proposal that exhausts the configured maximum number of
view changes transitions to `aborted` and is reported to the caller as
`ConsensusTimeout`. -/
def onTimeout (cfg : ConsensusConfig) (s : EngineState) : EngineState :=
  let suspected' := match leaderOf s with
    | some l => s.suspected ++ [l]
    | none => s.suspected
  let s' : EngineState :=
    { s with suspected := suspected'
             round := s.round + 1
             viewChanges := s.viewChanges + 1
             phase := .prePrepare }
  if cfg.maxViewChanges < s'.viewChanges then
    { s' with phase := .aborted, reported := some .consensusTimeout }
  else s'

/-- A fingerprint used to instantiate concrete consensus scenarios. -/
def sampleFingerprint : AgentFingerprint :=
  { subjectId := "agent-1"
    staticHash := .bytes [0]
    behavioralHash := .bytes [1]
    cognitiveHash := .bytes [2]
    compositionalHash := .bytes [3]
    compositeHash := compositeOf (.bytes [0]) (.bytes [1]) (.bytes [2]) (.bytes [3])
    version := 1
    generatedAt := 0 }

/-- A fresh proposal in the commit phase of round 0, no votes yet. -/
def freshProposal : ConsensusProposal :=
  { proposalId := "prop-1"
    fingerprint := sampleFingerprint
    round := 0
    phase := .commit
    commitVotes := []
    finalizedOutcome := none
    quorumCertificate := none }

/-- Scenario A (spec §8): 7 validators, 0 faulty — every validator casts
an `accept` commit vote, in validator-id order. -/
def scenarioAVotes : List (ValidatorId × Outcome) :=
  (List.range 7).map (fun v => (v, .accept))

/-- The run of scenario A: f = 2, all 7 honest commit votes observed. -/
def scenarioARun : ConsensusProposal :=
  observeCommitVotes 2 freshProposal scenarioAVotes

/-! ## Merkle tree -/

/-- Modelled from the spec: the Merkle root over an ordered sequence of
`entryHash` values — a binary tree with domain-separated leaf and
internal-node hashing (`leafH` vs `nodeH`). -/
def merkleRoot : List Digest → Digest
  | [] => .bytes []
  | [h] => .leafH h
  | a :: b :: t =>
      let hs := a :: b :: t
      let k := hs.length / 2
      .nodeH (merkleRoot (hs.take k)) (merkleRoot (hs.drop k))
termination_by hs => hs.length
decreasing_by
  all_goals simp [List.length_take]
  all_goals omega

/-- Modelled from the spec: the standard sibling-path audit path for the
leaf at position `i`.  Each element is a sibling subtree root paired
with its side (`true` = sibling on the left). -/
def auditPath : Nat → List Digest → List (Bool × Digest)
  | _, [] => []
  | _, [_] => []
  | i, a :: b :: t =>
      let hs := a :: b :: t
      let k := hs.length / 2
      if i < k then
        auditPath i (hs.take k) ++ [(false, merkleRoot (hs.drop k))]
      else
        auditPath (i - k) (hs.drop k) ++ [(true, merkleRoot (hs.take k))]
termination_by _ hs => hs.length
decreasing_by
  all_goals simp [List.length_take]
  all_goals omega

/-- One verification step: combine the running hash with a sibling. -/
def chainStep (acc : Digest) (s : Bool × Digest) : Digest :=
  if s.1 then .nodeH s.2 acc else .nodeH acc s.2

/-- Local verification of an audit path: fold the siblings up from the
(already leaf-hashed) starting digest. -/
def chainUp (start : Digest) (path : List (Bool × Digest)) : Digest :=
  path.foldl chainStep start

/-- Modelled from the spec: the proof consumer's check of an inclusion
proof — recompute the root from the claimed leaf data and the audit
path and compare with the signed tree head's `rootHash`. -/
def verifyInclusion (leafData : Digest) (path : List (Bool × Digest))
    (root : Digest) : Bool :=
  chainUp (.leafH leafData) path = root

/-! ## Transparency log -/

/-- Modelled from the spec: an append-only `LogEntry`: `entryIndex`
(gapless sequence number), `proposalId`, `finalizedOutcome`, and
`entryHash` = digest(previous `entryHash` ‖ serialized entry payload). -/
structure LogEntry where
  entryIndex : Nat
  proposalId : String
  finalizedOutcome : Outcome
  entryHash : Digest
  deriving DecidableEq, Repr

/-- Modelled from the spec: the serialized entry payload — the finalized
outcome tag followed by the proposal id bytes. -/
def serializePayload (pid : String) (o : Outcome) : List Nat :=
  (match o with | .accept => 1 | .reject => 0) :: pid.toList.map Char.toNat

/-- Modelled from the spec: the Transparency Log — the ordered entries
plus the transient mid-anchoring flag under which `Append` fails with
`LogSealed`. -/
structure TransparencyLog where
  entries : List LogEntry
  sealedForAnchoring : Bool
  deriving DecidableEq, Repr

/-- The empty log, writes open. -/
def emptyLog : TransparencyLog := { entries := [], sealedForAnchoring := false }

/-- The hash-chain seed before any entry exists. -/
def genesisHash : Digest := .bytes []

/-- The `entryHash` at position `i`, or the genesis seed out of range. -/
def hashAt (entries : List LogEntry) (i : Nat) : Digest :=
  match entries[i]? with
  | some e => e.entryHash
  | none => genesisHash

/-- The previous `entryHash` seen by the entry at position `i`. -/
def prevHash (entries : List LogEntry) (i : Nat) : Digest :=
  if i = 0 then genesisHash else hashAt entries (i - 1)

/-- Modelled from the spec: the `Append` contract — fails with
`LogSealed` while the log is mid-anchoring; otherwise creates the next
`LogEntry` with the next gapless index and the chained `entryHash`, and
never touches existing entries. -/
def appendEntry (log : TransparencyLog) (pid : String) (o : Outcome) :
    Except QlafsError TransparencyLog :=
  if log.sealedForAnchoring then .error .logSealed
  else
    let i := log.entries.length
    let e : LogEntry :=
      { entryIndex := i
        proposalId := pid
        finalizedOutcome := o
        entryHash := .chainH (prevHash log.entries i)
          (serializePayload pid o) }
    .ok { log with entries := log.entries ++ [e] }

/-- The hash-chain and gapless-index invariant of the log: each entry's
index is its position and its `entryHash` chains over its predecessor's. -/
def WellChained (entries : List LogEntry) : Prop :=
  ∀ (i : Nat) (e : LogEntry), entries[i]? = some e →
    e.entryIndex = i ∧
    e.entryHash = .chainH (prevHash entries i)
      (serializePayload e.proposalId e.finalizedOutcome)

/-- Modelled from the spec: a `SignedTreeHead` — `treeSize`, `rootHash`
(Merkle root over all `entryHash` values up to `treeSize`), `timestamp`,
`anchorReference`, and a signature over `(treeSize, rootHash,
timestamp)`. -/
structure SignedTreeHead where
  treeSize : Nat
  rootHash : Digest
  timestamp : Nat
  anchorReference : Option Nat
  signature : Digest
  deriving DecidableEq, Repr

/-- Modelled from the spec: the signature over `(treeSize, rootHash,
timestamp)`, symbolically a domain-separated digest of the three. -/
def signTreeHead (treeSize : Nat) (root : Digest) (ts : Nat) : Digest :=
  .chainH (.leafH root) [treeSize, ts]

/-- Modelled from the spec: `SealTreeHead` — snapshot the current tree
size and Merkle root over the `entryHash` sequence and sign them. -/
def sealTreeHead (log : TransparencyLog) (ts : Nat) (anchor : Option Nat) :
    SignedTreeHead :=
  let n := log.entries.length
  let root := merkleRoot (log.entries.map (fun e => e.entryHash))
  { treeSize := n
    rootHash := root
    timestamp := ts
    anchorReference := anchor
    signature := signTreeHead n root ts }

/-- Modelled from the spec: `ProveInclusion(entryIndex, atTreeSize)` —
the audit path for the entry within the tree over the first
`atTreeSize` entry hashes. -/
def ProveInclusion (log : TransparencyLog) (i atTreeSize : Nat) :
    List (Bool × Digest) :=
  auditPath i ((log.entries.take atTreeSize).map (fun e => e.entryHash))

/-! ## Validator registry -/

/-- Modelled from the spec: validator status `∈ {active, suspected,
blacklisted}`. -/
inductive VStatus : Type where
  | active : VStatus
  | suspected : VStatus
  | blacklisted : VStatus
  deriving DecidableEq, Repr

/-- Modelled from the spec: a `Validator` record owned exclusively by
the Validator Registry: `validatorId`, public key, `reputationScore`,
`status`, `lastSeenRound`, plus the strike timestamps backing the
rolling-window strike counter. -/
structure Validator where
  validatorId : ValidatorId
  publicKey : List Nat
  reputationScore : ℚ
  status : VStatus
  lastSeenRound : Nat
  strikeTimes : List Nat
  deriving DecidableEq, Repr

/-- Modelled from the spec: the Validator Registry — the registered
validators and the length of the rolling strike window. -/
structure Registry where
  validators : List Validator
  strikeWindow : Nat
  deriving DecidableEq, Repr

/-- Look a validator up by id. -/
def findValidator (reg : Registry) (id : ValidatorId) : Option Validator :=
  reg.validators.find? (fun v => v.validatorId = id)

/-- Modelled from the spec: the operations reachable on a registered
validator — `Register`, `Deregister`, the consensus engine's
`ReportFault` callback, and the external-caller metadata updates
(public-key update, liveness heartbeat).  Per the spec, external
callers never drive `status` directly. -/
inductive RegistryOp : Type where
  | register : Validator → RegistryOp
  | deregister : ValidatorId → RegistryOp
  | reportFault : ValidatorId → Nat → RegistryOp
  | updateValidator : ValidatorId → List Nat → RegistryOp
  | heartbeat : ValidatorId → Nat → RegistryOp
  deriving DecidableEq, Repr

/-- Modelled from the spec: `ReportFault` on one validator record —
strikes outside the rolling window are dropped, the new strike is
recorded; three strikes within the window transition `status` to
`blacklisted`, with the reputation frozen at its last value; a
blacklisted validator never auto-recovers. -/
def strikeValidator (window now : Nat) (v : Validator) : Validator :=
  let strikes := v.strikeTimes.filter (fun t => now ≤ t + window) ++ [now]
  if v.status = .blacklisted then { v with strikeTimes := strikes }
  else if 3 ≤ strikes.length then
    { v with strikeTimes := strikes, status := .blacklisted }
  else
    { v with strikeTimes := strikes, status := .suspected }

/-- Modelled from the spec: one registry operation.  `Register` creates
a fresh record (ids are never silently overwritten — recovery of a
blacklisted validator requires explicit re-registration after a
deregistration); `Deregister` removes a record without mutating any
other; `ReportFault` is the only operation that touches `status`. -/
def applyOp (reg : Registry) (op : RegistryOp) : Registry :=
  match op with
  | .register v =>
      if (findValidator reg v.validatorId).isSome then reg
      else { reg with validators :=
        reg.validators ++ [{ v with status := .active, strikeTimes := [] }] }
  | .deregister id =>
      { reg with validators :=
        reg.validators.filter (fun v => ¬ v.validatorId = id) }
  | .reportFault id now =>
      { reg with validators := reg.validators.map (fun v =>
          if v.validatorId = id then strikeValidator reg.strikeWindow now v
          else v) }
  | .updateValidator id pk =>
      { reg with validators := reg.validators.map (fun v =>
          if v.validatorId = id then { v with publicKey := pk } else v) }
  | .heartbeat id round =>
      { reg with validators := reg.validators.map (fun v =>
          if v.validatorId = id then { v with lastSeenRound := round }
          else v) }

/-- Modelled from the spec: `ActiveSet()` — the ordered set of
validators excluding blacklisted and currently-suspected ones. -/
def ActiveSet (reg : Registry) : List Validator :=
  reg.validators.filter (fun v => v.status = .active)

/-! ## Trust score calculator -/

/-- Modelled from the spec: the five configured trust-score weights. -/
structure TrustWeights where
  w1 : ℚ
  w2 : ℚ
  w3 : ℚ
  w4 : ℚ
  w5 : ℚ
  deriving DecidableEq, Repr

/-- Modelled from the spec: the configuration defaults 30/20/20/20/10
(asserted by the original documentation, treated as defaults). -/
def defaultWeights : TrustWeights :=
  { w1 := 30/100, w2 := 20/100, w3 := 20/100, w4 := 20/100, w5 := 10/100 }

/-- Modelled from the spec: the read-only inputs of the trust score,
read from the Transparency Log and the Validator Registry. -/
structure TrustInputs where
  verificationHistory : ℚ
  consensusParticipation : ℚ
  behavioralConsistency : ℚ
  performanceMetrics : ℚ
  securityIncidents : ℚ
  deriving DecidableEq, Repr

/-- Clamp to the unit interval. -/
def clamp01 (x : ℚ) : ℚ := min 1 (max 0 x)

/-- Modelled from the spec: `Score(subjectId) = w1·verificationHistory +
w2·consensusParticipation + w3·behavioralConsistency +
w4·performanceMetrics − w5·securityIncidents`, clamped to [0,1]; a pure
function of its read-only inputs. -/
def Score (w : TrustWeights) (t : TrustInputs) : ℚ :=
  clamp01 (w.w1 * t.verificationHistory + w.w2 * t.consensusParticipation +
    w.w3 * t.behavioralConsistency + w.w4 * t.performanceMetrics -
    w.w5 * t.securityIncidents)

/-! ## Transparency service interface -/

/-- The handlers wired in `qlafs-transparency/cmd/main.go`, embedded
from the route registrations in that source file. -/
inductive HandlerKind : Type where
  | addLogEntry : HandlerKind
  | getLogEntry : HandlerKind
  | listLogEntries : HandlerKind
  | getInclusionProof : HandlerKind
  | getConsistencyProof : HandlerKind
  | getSignedTreeHead : HandlerKind
  | verifyLogEntry : HandlerKind
  | verifyInclusionProofH : HandlerKind
  | verifyConsistency : HandlerKind
  | triggerAnchoring : HandlerKind
  | publicVerifyEntry : HandlerKind
  | getPublicTreeHead : HandlerKind
  | getPublicEntry : HandlerKind
  deriving DecidableEq, Repr

/-- One route of the HTTP surface: method, path, whether the enclosing
group carries the `middleware.Auth` middleware, and the handler. -/
structure Route where
  method : String
  path : String
  requiresAuth : Bool
  handler : HandlerKind
  deriving DecidableEq, Repr

/-- The route table of `qlafs-transparency/cmd/main.go`: the `/api/v1`
group is registered behind `middleware.Auth` (line 103); the
`/public/v1` group (lines 153–159) is registered on the bare router
with no authentication middleware. -/
def transparencyRoutes : List Route :=
  [ { method := "POST", path := "/api/v1/logs/entries", requiresAuth := true,
      handler := .addLogEntry },
    { method := "GET", path := "/api/v1/logs/entries/:id", requiresAuth := true,
      handler := .getLogEntry },
    { method := "GET", path := "/api/v1/logs/entries", requiresAuth := true,
      handler := .listLogEntries },
    { method := "GET", path := "/api/v1/logs/proof/:id", requiresAuth := true,
      handler := .getInclusionProof },
    { method := "GET", path := "/api/v1/logs/consistency", requiresAuth := true,
      handler := .getConsistencyProof },
    { method := "GET", path := "/api/v1/logs/root", requiresAuth := true,
      handler := .getSignedTreeHead },
    { method := "POST", path := "/api/v1/verification/verify-entry",
      requiresAuth := true, handler := .verifyLogEntry },
    { method := "POST", path := "/api/v1/verification/verify-proof",
      requiresAuth := true, handler := .verifyInclusionProofH },
    { method := "POST", path := "/api/v1/verification/verify-consistency",
      requiresAuth := true, handler := .verifyConsistency },
    { method := "POST", path := "/api/v1/anchoring/anchor", requiresAuth := true,
      handler := .triggerAnchoring },
    { method := "GET", path := "/public/v1/verify/:hash", requiresAuth := false,
      handler := .publicVerifyEntry },
    { method := "GET", path := "/public/v1/tree-head", requiresAuth := false,
      handler := .getPublicTreeHead },
    { method := "GET", path := "/public/v1/entry/:id", requiresAuth := false,
      handler := .getPublicEntry } ]

/-- The transparency service state: the log, the sealed tree heads, and
the recorded anchors. -/
structure ServerState where
  log : TransparencyLog
  sealedHeads : List SignedTreeHead
  anchors : List (Nat × Digest)
  deriving DecidableEq, Repr

/-- Response of `verifyEntry(entryHash) → {included: bool, proof}`. -/
structure VerifyEntryResponse where
  included : Bool
  proof : List (Bool × Digest)
  deriving DecidableEq, Repr

/-- A request to one of the modelled endpoints. -/
inductive Request : Type where
  | verifyEntry : Digest → Request
  | getTreeHead : Request
  | appendProposal : String → Outcome → Request
  deriving DecidableEq, Repr

/-- A response from one of the modelled endpoints. -/
inductive Response : Type where
  | verifyResult : VerifyEntryResponse → Response
  | treeHead : SignedTreeHead → Response
  | appended : Response
  | failed : QlafsError → Response
  deriving DecidableEq, Repr

/-- Modelled from the spec: `verifyEntry(entryHash)` — look the hash up
among the entries; when present, answer `included` together with the
inclusion proof against the current tree size. -/
def handleVerifyEntry (s : ServerState) (h : Digest) : VerifyEntryResponse :=
  match s.log.entries.findIdx? (fun e => e.entryHash = h) with
  | some i =>
      { included := true, proof := ProveInclusion s.log i s.log.entries.length }
  | none => { included := false, proof := [] }

/-- Modelled from the spec: `getTreeHead()` — the most recently sealed
tree head (sealing is idempotent within the same tree size, so an
unsealed state answers the head sealed on demand without persisting). -/
def handleGetTreeHead (s : ServerState) (ts : Nat) : SignedTreeHead :=
  match s.sealedHeads.getLast? with
  | some sth => sth
  | none => sealTreeHead s.log ts none

/-- The request dispatcher: public verification requests answer from
the state without changing it; an append request goes through the
`Append` contract and does change the log. -/
def dispatch (s : ServerState) (r : Request) (now : Nat) :
    ServerState × Response :=
  match r with
  | .verifyEntry h => (s, .verifyResult (handleVerifyEntry s h))
  | .getTreeHead => (s, .treeHead (handleGetTreeHead s now))
  | .appendProposal pid o =>
      match appendEntry s.log pid o with
      | .ok log' => ({ s with log := log' }, .appended)
      | .error e => (s, .failed e)

/-! ## Concrete instances used to exercise the theorems -/

/-- Evidence with all four classes present. -/
def eFull : Evidence :=
  { staticEv := some [0], behavioralEv := some [1],
    cognitiveEv := some [2], compositionalEv := some [3] }

/-- Evidence whose behavioral class is absent. -/
def eMissing : Evidence :=
  { staticEv := some [0], behavioralEv := none,
    cognitiveEv := some [2], compositionalEv := some [3] }

/-- Fold a batch of finalized proposals into the log, keeping the log
unchanged on a failed append. -/
def appendMany (log : TransparencyLog) (ps : List (String × Outcome)) :
    TransparencyLog :=
  ps.foldl (fun l p =>
    match appendEntry l p.1 p.2 with
    | .ok l' => l'
    | .error _ => l) log

/-- Serialized payloads of the two demo entries. -/
def demoPay0 : List Nat := serializePayload "p0" .accept
def demoPay1 : List Nat := serializePayload "p1" .reject
def demoPay2 : List Nat := serializePayload "p2" .accept

/-- The hash-chain predecessor of the second demo entry. -/
def demoPrev : Digest := .chainH genesisHash demoPay0

/-- A three-entry demo log. -/
def demoLog : TransparencyLog :=
  appendMany emptyLog [("p0", .accept), ("p1", .reject), ("p2", .accept)]

/-- The second entry of `demoLog`. -/
def demoEntry1 : LogEntry :=
  { entryIndex := 1, proposalId := "p1", finalizedOutcome := .reject,
    entryHash := .chainH demoPrev demoPay1 }

/-- A demo consensus configuration: f = 2, at most 3 view changes. -/
def demoCfg : ConsensusConfig :=
  { f := 2, maxViewChanges := 3, phaseTimeoutMillis := 5000 }

/-- A demo engine state at the start of round 0 with 7 active
validators. -/
def demoEngine : EngineState :=
  { activeSet := [0, 1, 2, 3, 4, 5, 6]
    round := 0
    viewChanges := 0
    phase := .prepare
    suspected := []
    reported := none }

/-- A demo validator carrying two strikes inside the rolling window. -/
def demoValidator : Validator :=
  { validatorId := 4
    publicKey := [7, 7]
    reputationScore := 9/10
    status := .suspected
    lastSeenRound := 12
    strikeTimes := [90, 95] }

/-- A demo registry holding `demoValidator` and one healthy peer. -/
def demoRegistry : Registry :=
  { validators :=
      [ { validatorId := 1, publicKey := [1], reputationScore := 1,
          status := .active, lastSeenRound := 12, strikeTimes := [] },
        demoValidator ]
    strikeWindow := 50 }

/-- A demo transparency server state over `demoLog`. -/
def demoServer : ServerState :=
  { log := demoLog, sealedHeads := [], anchors := [] }

/-! ## Shared helper lemmas -/

theorem chainUp_concat (start : Digest) (p : List (Bool × Digest))
    (s : Bool × Digest) :
    chainUp start (p ++ [s]) = chainStep (chainUp start p) s := by
  simp [chainUp, List.foldl_append]

theorem chainStep_inj (s : Bool × Digest) (d1 d2 : Digest)
    (h : chainStep d1 s = chainStep d2 s) : d1 = d2 := by
  unfold chainStep at h
  by_cases hb : s.1 <;> simp [hb] at h <;> exact h

theorem chainUp_inj (p : List (Bool × Digest)) :
    ∀ d1 d2, chainUp d1 p = chainUp d2 p → d1 = d2 := by
  induction p with
  | nil => intro d1 d2 h; exact h
  | cons s rest ih =>
      intro d1 d2 h
      exact chainStep_inj s d1 d2 (ih (chainStep d1 s) (chainStep d2 s) h)

theorem chainUp_auditPath_aux : ∀ (n : Nat) (hs : List Digest), hs.length ≤ n →
    ∀ (i : Nat) (h : i < hs.length),
      chainUp (.leafH hs[i]) (auditPath i hs) = merkleRoot hs := by
  intro n
  induction n with
  | zero => intro hs hle i h; omega
  | succ n ih =>
    intro hs hle i h
    match hs, hle, h with
    | [a], _, h =>
        have hi : i = 0 := by simp at h; omega
        subst hi
        simp [auditPath, merkleRoot, chainUp]
    | a :: b :: t, hle, h =>
        rw [auditPath]
        have hlen : (a :: b :: t).length = t.length + 2 := by simp
        by_cases hik : i < (a :: b :: t).length / 2
        · rw [if_pos hik, chainUp_concat]
          have htl : ((a :: b :: t).take ((a :: b :: t).length / 2)).length
              = (a :: b :: t).length / 2 := by
            simp [List.length_take]; omega
          have hig : i < ((a :: b :: t).take ((a :: b :: t).length / 2)).length := by
            omega
          have hrec := ih ((a :: b :: t).take ((a :: b :: t).length / 2))
            (by rw [htl]; omega) i hig
          rw [List.getElem_take] at hrec
          rw [hrec]
          conv_rhs => rw [merkleRoot]
          simp [chainStep]
        · rw [if_neg hik, chainUp_concat]
          have hdl : ((a :: b :: t).drop ((a :: b :: t).length / 2)).length
              = (a :: b :: t).length - (a :: b :: t).length / 2 := by
            simp [List.length_drop]
          have hig : i - (a :: b :: t).length / 2
              < ((a :: b :: t).drop ((a :: b :: t).length / 2)).length := by
            omega
          have hrec := ih ((a :: b :: t).drop ((a :: b :: t).length / 2))
            (by rw [hdl]; omega) (i - (a :: b :: t).length / 2) hig
          rw [List.getElem_drop] at hrec
          have hix : (a :: b :: t).length / 2 + (i - (a :: b :: t).length / 2) = i := by
            omega
          simp only [hix] at hrec
          rw [hrec]
          conv_rhs => rw [merkleRoot]
          simp [chainStep]

theorem chainUp_auditPath (hs : List Digest) (i : Nat) (h : i < hs.length) :
    chainUp (.leafH hs[i]) (auditPath i hs) = merkleRoot hs :=
  chainUp_auditPath_aux hs.length hs le_rfl i h

theorem chainUp_auditPath_ne (hs : List Digest) (i : Nat) (h : i < hs.length)
    (d' : Digest) (hne : d' ≠ hs[i]) :
    chainUp (.leafH d') (auditPath i hs) ≠ merkleRoot hs := by
  intro heq
  have h2 := chainUp_auditPath hs i h
  have h3 := chainUp_inj (auditPath i hs) (.leafH d') (.leafH hs[i])
    (heq.trans h2.symm)
  simp at h3
  exact hne h3

theorem prevHash_append (l l2 : List LogEntry) (i : Nat) (h : i ≤ l.length) :
    prevHash (l ++ l2) i = prevHash l i := by
  unfold prevHash hashAt
  by_cases hz : i = 0
  · simp [hz]
  · rw [if_neg hz, if_neg hz, List.getElem?_append, if_pos (by omega)]

theorem except_ok_bind {ε α β : Type} (a : α) (f : α → Except ε β) :
    (Except.ok a : Except ε α) >>= f = f a := rfl

theorem except_error_bind {ε α β : Type} (e : ε) (f : α → Except ε β) :
    (Except.error e : Except ε α) >>= f = Except.error e := rfl

theorem except_pure {ε α : Type} (a : α) :
    (pure a : Except ε α) = Except.ok a := rfl

/-! ## Claim theorems -/

/-- C4: for every log entry present at the sealed tree size,
`ProveInclusion` followed by local verification of the returned audit
path against `SignedTreeHead.rootHash` succeeds; and for every mutation
of that leaf's payload (in particular any single-bit change, which
yields a different payload byte string) the same verification fails.
The tree is the domain-separated leaf/internal-node hash over the
ordered `entryHash` sequence. -/
theorem inclusion_proof_roundtrip (log : TransparencyLog) (ts : Nat)
    (anchor : Option Nat) (i : Nat) (e : LogEntry)
    (he : log.entries[i]? = some e) :
    verifyInclusion e.entryHash (ProveInclusion log i log.entries.length)
      (sealTreeHead log ts anchor).rootHash = true
    ∧ ∀ (prev : Digest) (payload payload' : List Nat),
        e.entryHash = .chainH prev payload → payload' ≠ payload →
        verifyInclusion (.chainH prev payload')
          (ProveInclusion log i log.entries.length)
          (sealTreeHead log ts anchor).rootHash = false := by
  have hi : i < log.entries.length := by
    by_contra hcon
    rw [List.getElem?_eq_none (by omega)] at he
    exact Option.noConfusion he
  have him : i < (log.entries.map (fun e => e.entryHash)).length := by
    simpa using hi
  have hleaf : (log.entries.map (fun e => e.entryHash))[i] = e.entryHash := by
    rw [List.getElem_map]
    have := List.getElem?_eq_some.mp he
    obtain ⟨hlt, hx⟩ := this
    rw [hx]
  have hroot : (sealTreeHead log ts anchor).rootHash
      = merkleRoot (log.entries.map (fun e => e.entryHash)) := rfl
  have hpath : ProveInclusion log i log.entries.length
      = auditPath i (log.entries.map (fun e => e.entryHash)) := by
    unfold ProveInclusion
    rw [List.take_length]
  constructor
  · have h1 := chainUp_auditPath (log.entries.map (fun e => e.entryHash)) i him
    rw [hleaf] at h1
    simp [verifyInclusion, hpath, hroot, h1]
  · intro prev payload payload' hhash hne
    have hd : Digest.chainH prev payload'
        ≠ (log.entries.map (fun e => e.entryHash))[i] := by
      rw [hleaf, hhash]
      intro hcon
      injection hcon with h1 h2
      exact hne h2
    have h2 := chainUp_auditPath_ne (log.entries.map (fun e => e.entryHash)) i him
      (.chainH prev payload') hd
    simp [verifyInclusion, hpath, hroot, h2]

/-- Witness for C4 on the concrete three-entry `demoLog`: the inclusion
proof for entry 1 verifies against the sealed head, and any change to
that entry's payload makes the same verification fail. -/
theorem inclusion_proof_roundtrip_witness :
    verifyInclusion demoEntry1.entryHash
      (ProveInclusion demoLog 1 demoLog.entries.length)
      (sealTreeHead demoLog 9 none).rootHash = true
    ∧ verifyInclusion (.chainH demoPrev [])
      (ProveInclusion demoLog 1 demoLog.entries.length)
      (sealTreeHead demoLog 9 none).rootHash = false := by
  have h := inclusion_proof_roundtrip demoLog 9 none 1 demoEntry1 (by rfl)
  exact ⟨h.1, h.2 demoPrev demoPay1 [] rfl (by simp [demoPay1, serializePayload])⟩

/-- C6: a successful `Append` extends the log without touching any
existing entry (append-only), adds exactly one entry, preserves the
gapless-index/hash-chain invariant (`entryIndex` values are positions,
each `entryHash` = digest(previous `entryHash` ‖ serialized payload)),
and the empty log satisfies the invariant. -/
theorem log_append_only (log log' : TransparencyLog) (pid : String)
    (o : Outcome) (h : appendEntry log pid o = .ok log') :
    log'.entries.take log.entries.length = log.entries
    ∧ log'.entries.length = log.entries.length + 1
    ∧ (WellChained log.entries → WellChained log'.entries)
    ∧ WellChained emptyLog.entries := by
  unfold appendEntry at h
  by_cases hs : log.sealedForAnchoring
  · rw [if_pos hs] at h; exact Except.noConfusion h
  · rw [if_neg hs] at h
    have hlog : log' =
        { log with entries := log.entries ++
            [{ entryIndex := log.entries.length
               proposalId := pid
               finalizedOutcome := o
               entryHash := .chainH (prevHash log.entries log.entries.length)
                 (serializePayload pid o) }] } := by
      injection h with h'; exact h'.symm
    subst hlog
    refine ⟨List.take_left _ _, by simp, ?_, ?_⟩
    · intro hwc i e' he'
      rw [List.getElem?_append] at he'
      by_cases hilt : i < log.entries.length
      · rw [if_pos hilt] at he'
        have hold := hwc i e' he'
        refine ⟨hold.1, ?_⟩
        rw [hold.2, prevHash_append _ _ _ (by omega)]
      · rw [if_neg hilt] at he'
        by_cases hieq : i = log.entries.length
        · subst hieq
          simp only [Nat.sub_self, List.getElem?_cons_zero] at he'
          injection he' with he''
          subst he''
          refine ⟨rfl, ?_⟩
          rw [prevHash_append _ _ _ le_rfl]
        · have : i - log.entries.length ≥ 1 := by omega
          rw [List.getElem?_eq_none (by simp; omega)] at he'
          exact Option.noConfusion he'
    · intro i e' he'
      simp [emptyLog] at he'

/-- Witness for C6: appending a fourth entry to `demoLog` leaves the
three existing entries in place, and the well-chained invariant holds
of the grown log. -/
theorem log_append_only_witness :
    (appendMany demoLog [("p3", .reject)]).entries.take demoLog.entries.length
      = demoLog.entries
    ∧ WellChained (appendMany demoLog [("p3", .reject)]).entries := by
  have hchain : WellChained demoLog.entries := by
    intro i e he
    match i, he with
    | 0, he =>
        injection he with he'
        subst he'
        exact ⟨rfl, rfl⟩
    | 1, he =>
        injection he with he'
        subst he'
        exact ⟨rfl, rfl⟩
    | 2, he =>
        injection he with he'
        subst he'
        exact ⟨rfl, rfl⟩
  have h := log_append_only demoLog (appendMany demoLog [("p3", .reject)])
    "p3" .reject (by rfl)
  exact ⟨h.1, h.2.2.1 hchain⟩

theorem observeCommitVote_keeps_finalized (fv : Nat) (p : ConsensusProposal)
    (v : ValidatorId × Outcome) (o' : Outcome)
    (h : p.finalizedOutcome = some o') :
    (observeCommitVote fv p v).finalizedOutcome = some o' := by
  unfold observeCommitVote commitOutcome
  by_cases hq : quorumThreshold fv ≤
      ((p.commitVotes ++ [v]).filter (fun w => w.2 = v.2)).length
  · simp only [if_pos hq, h]
  · simp only [if_neg hq, h]

theorem observeCommitVotes_keeps_finalized (fv : Nat)
    (votes : List (ValidatorId × Outcome)) : ∀ (p : ConsensusProposal)
    (o' : Outcome), p.finalizedOutcome = some o' →
    (observeCommitVotes fv p votes).finalizedOutcome = some o' := by
  induction votes with
  | nil => intro p o' h; exact h
  | cons v rest ih =>
      intro p o' h
      exact ih (observeCommitVote fv p v) o'
        (observeCommitVote_keeps_finalized fv p v o' h)

/-- C1: the protocol's core safety argument.  (i) With `n = 3f+1`
active validators and one commit vote per validator per round, any two
`2f+1` quorum certificates of the same round certify the same outcome —
two conflicting certificates cannot exist, by pigeonhole on the quorum
intersection.  (ii) The finalized outcome is write-once: `commitOutcome`
checks it before every commit, so once a proposal is finalized, no
later commit attempt nor any further stream of commit votes (across all
rounds) can change the outcome — at most one of finalized-accept and
finalized-reject is ever reached for a given proposal. -/
theorem consensus_safety (active : Finset ValidatorId) (f : Nat)
    (commitVote : ValidatorId → Option Outcome) (o1 o2 : Outcome)
    (S1 S2 : Finset ValidatorId) (hn : active.card = 3 * f + 1)
    (h1 : IsQuorumCert active f commitVote o1 S1)
    (h2 : IsQuorumCert active f commitVote o2 S2) :
    o1 = o2
    ∧ (∀ (p : ConsensusProposal) (o o' : Outcome)
        (cert : List (ValidatorId × Outcome)), p.finalizedOutcome = some o' →
        (commitOutcome p o cert).finalizedOutcome = some o')
    ∧ (∀ (fv : Nat) (p : ConsensusProposal) (o' : Outcome)
        (votes : List (ValidatorId × Outcome)), p.finalizedOutcome = some o' →
        (observeCommitVotes fv p votes).finalizedOutcome = some o') := by
  obtain ⟨hs1, hc1, hv1⟩ := h1
  obtain ⟨hs2, hc2, hv2⟩ := h2
  refine ⟨?_, ?_, ?_⟩
  · have hu : (S1 ∪ S2).card ≤ active.card :=
      Finset.card_le_card (Finset.union_subset hs1 hs2)
    have hui : (S1 ∪ S2).card + (S1 ∩ S2).card = S1.card + S2.card :=
      Finset.card_union_add_card_inter S1 S2
    have hq1 : 2 * f + 1 ≤ S1.card := hc1
    have hq2 : 2 * f + 1 ≤ S2.card := hc2
    have hpos : 0 < (S1 ∩ S2).card := by omega
    obtain ⟨v, hv⟩ := Finset.card_pos.mp hpos
    have hm := Finset.mem_inter.mp hv
    have e1 := hv1 v hm.1
    have e2 := hv2 v hm.2
    rw [e1] at e2
    injection e2
  · intro p o o' cert h
    unfold commitOutcome
    simp only [h]
  · intro fv p o' votes h
    exact observeCommitVotes_keeps_finalized fv votes p o' h

/-- Witness for C1 at a concrete 7-validator round (f = 2): two
overlapping 5-vote certificates over the same commit votes certify
equal outcomes, and a proposal finalized as `accept` stays `accept`
through a later reject-commit attempt. -/
theorem consensus_safety_witness :
    Outcome.accept = Outcome.accept
    ∧ (commitOutcome
        { freshProposal with finalizedOutcome := some .accept } .reject
        []).finalizedOutcome = some .accept := by
  have h := consensus_safety ({0, 1, 2, 3, 4, 5, 6} : Finset ValidatorId) 2
    (fun _ => some .accept) .accept .accept
    ({0, 1, 2, 3, 4} : Finset ValidatorId)
    ({1, 2, 3, 4, 5} : Finset ValidatorId)
    (by decide) ⟨by decide, by decide, by decide⟩ ⟨by decide, by decide, by decide⟩
  exact ⟨h.1, h.2.1 _ .reject .accept [] rfl⟩

/-- C2: a validator in `prepare` advances to `commit` exactly when it
has observed at least `2f+1` matching prepare votes; an unfinalized
proposal becomes finalized on an incoming commit vote exactly when the
observing validator then holds `2f+1` matching commit votes; the
threshold for f = 2 (n = 7) is 5; and in Scenario A (7 validators, 0
faulty, all committing `accept`) the proposal finalizes within round 0
with a 5-vote quorum certificate. -/
theorem quorum_progression :
    quorumThreshold 2 = 5
    ∧ (∀ (fv : Nat) (votes : List (ValidatorId × Outcome)) (o : Outcome),
        advanceFromPrepare fv votes o = .commit ↔
          quorumThreshold fv ≤ countMatching votes o)
    ∧ (∀ (fv : Nat) (p : ConsensusProposal) (v : ValidatorId × Outcome),
        p.finalizedOutcome = none →
        ((observeCommitVote fv p v).finalizedOutcome = some v.2 ↔
          quorumThreshold fv ≤ countMatching (p.commitVotes ++ [v]) v.2))
    ∧ scenarioARun.finalizedOutcome = some .accept
    ∧ scenarioARun.round = 0
    ∧ scenarioARun.quorumCertificate.map List.length = some 5 := by
  refine ⟨rfl, ?_, ?_, by decide, by decide, by decide⟩
  · intro fv votes o
    unfold advanceFromPrepare
    by_cases hq : quorumThreshold fv ≤ countMatching votes o
    · simp [hq]
    · simp [hq]
  · intro fv p v hnone
    unfold observeCommitVote commitOutcome countMatching
    by_cases hq : quorumThreshold fv ≤
        ((p.commitVotes ++ [v]).filter (fun w => w.2 = v.2)).length
    · simp only [if_pos hq, hnone]
      simp [countMatching]
      simp [List.filter_append] at hq
      omega
    · simp only [if_neg hq, hnone]
      simp [countMatching]
      simp [List.filter_append] at hq
      omega

/-- Witness for C2: the general finalization rule instantiated on the
first commit vote over a fresh proposal with f = 2 — one vote is below
the 5-vote threshold, so the proposal is not yet finalized. -/
theorem quorum_progression_witness :
    (observeCommitVote 2 freshProposal (0, .accept)).finalizedOutcome
        = some Outcome.accept ↔
      quorumThreshold 2 ≤ countMatching (freshProposal.commitVotes ++
        [(0, Outcome.accept)]) Outcome.accept :=
  quorum_progression.2.2.1 2 freshProposal (0, .accept) rfl

/-- C5: a phase timeout performs a view change: the round counter
increments by exactly 1, the active-set snapshot is kept, the current
leader is marked suspected, the next leader is the deterministic
rotation `round mod |ActiveSet|` at the incremented round, and the
round restarts from pre-prepare — unless the configured maximum number
of view changes is exhausted, in which case the proposal transitions to
`aborted` and `ConsensusTimeout` is reported to the caller. -/
theorem view_change_rotation (cfg : ConsensusConfig) (s : EngineState) :
    (onTimeout cfg s).round = s.round + 1
    ∧ (onTimeout cfg s).viewChanges = s.viewChanges + 1
    ∧ (onTimeout cfg s).activeSet = s.activeSet
    ∧ (∀ l, leaderOf s = some l → l ∈ (onTimeout cfg s).suspected)
    ∧ leaderOf (onTimeout cfg s)
        = s.activeSet[(s.round + 1) % s.activeSet.length]?
    ∧ (s.viewChanges + 1 ≤ cfg.maxViewChanges →
        (onTimeout cfg s).phase = .prePrepare
        ∧ (onTimeout cfg s).reported = s.reported)
    ∧ (cfg.maxViewChanges < s.viewChanges + 1 →
        (onTimeout cfg s).phase = .aborted
        ∧ (onTimeout cfg s).reported = some .consensusTimeout) := by
  unfold onTimeout
  by_cases hm : cfg.maxViewChanges < s.viewChanges + 1
  · simp only [if_pos hm]
    refine ⟨by trivial, by trivial, by trivial, ?_, by rfl, ?_, ?_⟩
    · intro l hl
      rw [hl]
      simp
    · intro hle; omega
    · intro _; exact ⟨by trivial, by trivial⟩
  · simp only [if_neg hm]
    refine ⟨by trivial, by trivial, by trivial, ?_, by rfl, ?_, ?_⟩
    · intro l hl
      rw [hl]
      simp
    · intro _; exact ⟨by trivial, by trivial⟩
    · intro hlt; omega

/-- Witness for C5 at the concrete demo engine (round 0, 7 validators,
view-change budget 3): after the timeout the round is 1, leader 0 is
suspected, and the round restarts from pre-prepare. -/
theorem view_change_rotation_witness :
    (onTimeout demoCfg demoEngine).round = 1
    ∧ (0 : ValidatorId) ∈ (onTimeout demoCfg demoEngine).suspected
    ∧ (onTimeout demoCfg demoEngine).phase = .prePrepare := by
  have h := view_change_rotation demoCfg demoEngine
  exact ⟨h.1, h.2.2.2.1 0 rfl, (h.2.2.2.2.2.1 (by decide)).1⟩

/-- C3: `Generate` is deterministic — for the same `(subjectId,
evidence)` input, two calls return identical fingerprints up to the
caller-supplied `version`/`generatedAt` bookkeeping (in particular the
same four sub-hashes and the same `compositeHash`, so two calls with
identical bookkeeping return identical fingerprints); and `compositeHash`
is a pure function of the four sub-hashes: on every successful result it
equals the fixed digest of their concatenation. -/
theorem generate_deterministic (s : String) (e : Evidence) :
    (∀ v1 t1 v2 t2 : Nat,
      (Generate s e v1 t1).map fingerprintCore
        = (Generate s e v2 t2).map fingerprintCore)
    ∧ (∀ (v t : Nat) (fp : AgentFingerprint), Generate s e v t = .ok fp →
        fp.compositeHash = compositeOf fp.staticHash fp.behavioralHash
          fp.cognitiveHash fp.compositionalHash) := by
  obtain ⟨se, be, ce, ke⟩ := e
  constructor
  · intro v1 t1 v2 t2
    cases se <;> cases be <;> cases ce <;> cases ke <;> rfl
  · intro v t fp h
    cases se <;> cases be <;> cases ce <;> cases ke <;>
      simp [Generate, digestEvidence, except_ok_bind, except_error_bind,
        except_pure] at h
    rw [← h]

/-- Witness for C3: generating twice from the complete demo evidence
with different bookkeeping yields the same identity content, and the
concrete result's composite hash is the digest of its four sub-hashes. -/
theorem generate_deterministic_witness :
    (Generate "agent-1" eFull 1 0).map fingerprintCore
      = (Generate "agent-1" eFull 2 77).map fingerprintCore
    ∧ sampleFingerprint.compositeHash
      = compositeOf sampleFingerprint.staticHash sampleFingerprint.behavioralHash
          sampleFingerprint.cognitiveHash sampleFingerprint.compositionalHash := by
  exact ⟨(generate_deterministic "agent-1" eFull).1 1 0 2 77,
    (generate_deterministic "agent-1" eFull).2 1 0 sampleFingerprint (by rfl)⟩

/-- C7: `Generate` is atomic in its failures — if any of the four
digesters fails on its evidence class (its required fields are absent),
the whole operation returns `EvidenceIncomplete` and no fingerprint;
and every successful result is complete: each of the four sub-hashes is
the digest of its (present) evidence class and the composite hash is
derived from them — never a partial fingerprint. -/
theorem generate_atomic (s : String) (e : Evidence) (v t : Nat) :
    ((digestEvidence e.staticEv = .error .evidenceIncomplete
      ∨ digestEvidence e.behavioralEv = .error .evidenceIncomplete
      ∨ digestEvidence e.cognitiveEv = .error .evidenceIncomplete
      ∨ digestEvidence e.compositionalEv = .error .evidenceIncomplete) →
      Generate s e v t = .error .evidenceIncomplete)
    ∧ (∀ fp : AgentFingerprint, Generate s e v t = .ok fp →
        (∃ bs, e.staticEv = some bs ∧ fp.staticHash = .bytes bs)
        ∧ (∃ bs, e.behavioralEv = some bs ∧ fp.behavioralHash = .bytes bs)
        ∧ (∃ bs, e.cognitiveEv = some bs ∧ fp.cognitiveHash = .bytes bs)
        ∧ (∃ bs, e.compositionalEv = some bs ∧ fp.compositionalHash = .bytes bs)
        ∧ fp.compositeHash = compositeOf fp.staticHash fp.behavioralHash
            fp.cognitiveHash fp.compositionalHash) := by
  obtain ⟨se, be, ce, ke⟩ := e
  constructor
  · intro hfail
    cases se <;> cases be <;> cases ce <;> cases ke <;>
      simp_all [Generate, digestEvidence, except_ok_bind, except_error_bind,
        except_pure]
  · intro fp h
    cases se <;> cases be <;> cases ce <;> cases ke <;>
      simp_all [Generate, digestEvidence, except_ok_bind, except_error_bind,
        except_pure]
    subst h
    simp

/-- Witness for C7: evidence missing its behavioral class makes the
whole generation fail with `EvidenceIncomplete`, and the complete demo
evidence yields a complete fingerprint. -/
theorem generate_atomic_witness :
    Generate "agent-1" eMissing 1 0 = .error .evidenceIncomplete
    ∧ ∃ bs, eFull.staticEv = some bs
        ∧ sampleFingerprint.staticHash = .bytes bs := by
  refine ⟨(generate_atomic "agent-1" eMissing 1 0).1 (Or.inr (Or.inl rfl)), ?_⟩
  exact ((generate_atomic "agent-1" eFull 1 0).2 sampleFingerprint (by rfl)).1

/-- C8: a validator's `status` changes only through the consensus
engine's `ReportFault` callback.  The external-caller operations of the
public interface preserve every validator's status: `UpdateValidator`
and the liveness heartbeat are pointwise status-preserving, `Register`
never touches existing records, and `Deregister` only removes records
without mutating any survivor.  `ReportFault` itself: the reputation is
never modified (frozen at its last value), three strikes within the
rolling window transition `status` to `blacklisted`, and a blacklisted
validator stays blacklisted (no auto-recovery). -/
theorem status_only_via_reportFault (reg : Registry) :
    (∀ (id : ValidatorId) (pk : List Nat) (j : Nat),
      ((applyOp reg (.updateValidator id pk)).validators[j]?).map
          Validator.status
        = (reg.validators[j]?).map Validator.status)
    ∧ (∀ (id : ValidatorId) (r : Nat) (j : Nat),
      ((applyOp reg (.heartbeat id r)).validators[j]?).map Validator.status
        = (reg.validators[j]?).map Validator.status)
    ∧ (∀ (v : Validator) (j : Nat), j < reg.validators.length →
      (applyOp reg (.register v)).validators[j]? = reg.validators[j]?)
    ∧ (∀ (id : ValidatorId) (v' : Validator),
      v' ∈ (applyOp reg (.deregister id)).validators →
        v' ∈ reg.validators)
    ∧ (∀ (window now : Nat) (v : Validator),
      (strikeValidator window now v).reputationScore = v.reputationScore)
    ∧ (∀ (window now : Nat) (v : Validator), v.status ≠ .blacklisted →
      3 ≤ (v.strikeTimes.filter (fun t => now ≤ t + window)).length + 1 →
      (strikeValidator window now v).status = .blacklisted)
    ∧ (∀ (window now : Nat) (v : Validator), v.status = .blacklisted →
      (strikeValidator window now v).status = .blacklisted) := by
  refine ⟨?_, ?_, ?_, ?_, ?_, ?_, ?_⟩
  · intro id pk j
    simp only [applyOp, List.getElem?_map]
    cases reg.validators[j]? with
    | none => rfl
    | some v =>
        by_cases hid : v.validatorId = id <;> simp [hid]
  · intro id r j
    simp only [applyOp, List.getElem?_map]
    cases reg.validators[j]? with
    | none => rfl
    | some v =>
        by_cases hid : v.validatorId = id <;> simp [hid]
  · intro v j hj
    simp only [applyOp]
    by_cases hex : (findValidator reg v.validatorId).isSome
    · rw [if_pos hex]
    · rw [if_neg hex]
      simp only [List.getElem?_append, if_pos hj]
  · intro id v' hmem
    simp only [applyOp] at hmem
    exact List.mem_of_mem_filter hmem
  · intro window now v
    unfold strikeValidator
    by_cases hb : v.status = VStatus.blacklisted
    · simp [hb]
    · rw [if_neg hb]
      by_cases h3 : 3 ≤ (v.strikeTimes.filter (fun t => now ≤ t + window)
          ++ [now]).length
      · rw [if_pos h3]
      · rw [if_neg h3]
  · intro window now v hnb h3
    unfold strikeValidator
    rw [if_neg hnb, if_pos (by simp; omega)]
  · intro window now v hb
    unfold strikeValidator
    rw [if_pos hb]
    exact hb

/-- Witness for C8 on `demoRegistry`: updating validator 4's public key
preserves its status at position 1, and a third in-window strike on
`demoValidator` (two recent strikes) blacklists it while freezing its
reputation. -/
theorem status_only_via_reportFault_witness :
    ((applyOp demoRegistry (.updateValidator 4 [9])).validators[1]?).map
        Validator.status
      = (demoRegistry.validators[1]?).map Validator.status
    ∧ (strikeValidator demoRegistry.strikeWindow 100 demoValidator).status
        = .blacklisted
    ∧ (strikeValidator demoRegistry.strikeWindow 100
        demoValidator).reputationScore = demoValidator.reputationScore := by
  have h := status_only_via_reportFault demoRegistry
  exact ⟨h.1 4 [9] 1,
    h.2.2.2.2.2.1 demoRegistry.strikeWindow 100 demoValidator (by decide)
      (by decide),
    h.2.2.2.2.1 demoRegistry.strikeWindow 100 demoValidator⟩

/-- Counterexample for C9 as stated: under the documented default
weight configuration 30/20/20/20/10, the four non-penalty weights sum
to 9/10, not 1.0 — the claim's "weights summing (ignoring the penalty
term) to 1.0" fails at the default configuration. -/
theorem trust_score_weights_counterexample :
    defaultWeights.w1 + defaultWeights.w2 + defaultWeights.w3
        + defaultWeights.w4 ≠ 1 := by
  norm_num [defaultWeights]

/-- C9 (amended): the trust score is the weighted sum
`w1·verificationHistory + w2·consensusParticipation +
w3·behavioralConsistency + w4·performanceMetrics − w5·securityIncidents`
clamped to [0,1]; the configured default weights 30/20/20/20/10 sum
*including the penalty weight* to 1.0 (the four positive weights sum to
9/10); the result always lies in [0,1]; and the computation is a pure
function of its read-only inputs — equal inputs give equal scores. -/
theorem trust_score_bounded :
    defaultWeights.w1 + defaultWeights.w2 + defaultWeights.w3
        + defaultWeights.w4 + defaultWeights.w5 = 1
    ∧ defaultWeights.w1 + defaultWeights.w2 + defaultWeights.w3
        + defaultWeights.w4 = 9/10
    ∧ (∀ (w : TrustWeights) (t : TrustInputs),
        Score w t = clamp01 (w.w1 * t.verificationHistory
          + w.w2 * t.consensusParticipation + w.w3 * t.behavioralConsistency
          + w.w4 * t.performanceMetrics - w.w5 * t.securityIncidents))
    ∧ (∀ (w : TrustWeights) (t : TrustInputs),
        0 ≤ Score w t ∧ Score w t ≤ 1)
    ∧ (∀ (w : TrustWeights) (t t' : TrustInputs), t = t' →
        Score w t = Score w t') := by
  refine ⟨by norm_num [defaultWeights], by norm_num [defaultWeights],
    fun w t => rfl, fun w t => ⟨?_, ?_⟩, fun w t t' h => by rw [h]⟩
  · unfold Score clamp01
    exact le_min (by norm_num) (le_max_left 0 _)
  · unfold Score clamp01
    exact min_le_left 1 _
/-- Witness for C9: the score of concrete inputs under the default
weights is a pure, clamped value in [0,1]. -/
theorem trust_score_bounded_witness :
    (0 ≤ Score defaultWeights
        { verificationHistory := 1, consensusParticipation := 1/2,
          behavioralConsistency := 1, performanceMetrics := 1,
          securityIncidents := 0 }
      ∧ Score defaultWeights
        { verificationHistory := 1, consensusParticipation := 1/2,
          behavioralConsistency := 1, performanceMetrics := 1,
          securityIncidents := 0 } ≤ 1)
    ∧ Score defaultWeights
        { verificationHistory := 1, consensusParticipation := 1/2,
          behavioralConsistency := 1, performanceMetrics := 1,
          securityIncidents := 0 }
      = Score defaultWeights
        { verificationHistory := 1, consensusParticipation := 1/2,
          behavioralConsistency := 1, performanceMetrics := 1,
          securityIncidents := 0 } :=
  ⟨trust_score_bounded.2.2.2.1 defaultWeights _,
   trust_score_bounded.2.2.2.2 defaultWeights _ _ rfl⟩

/-- C10: the public verification operations are read-only and
unauthenticated.  In the route table of
`qlafs-transparency/cmd/main.go`, every route whose handler belongs to
the `/public/v1` verification group carries no authentication
middleware; and dispatching `verifyEntry` or `getTreeHead` returns the
server state unchanged — entries, sealed tree heads and anchors are all
untouched. -/
theorem public_verification_readonly :
    (∀ r ∈ transparencyRoutes,
      (r.handler = .publicVerifyEntry ∨ r.handler = .getPublicTreeHead
        ∨ r.handler = .getPublicEntry) → r.requiresAuth = false)
    ∧ (∀ (s : ServerState) (h : Digest) (now : Nat),
        (dispatch s (.verifyEntry h) now).1 = s)
    ∧ (∀ (s : ServerState) (now : Nat),
        (dispatch s .getTreeHead now).1 = s) := by
  refine ⟨?_, fun s h now => rfl, fun s now => rfl⟩
  intro r hr hh
  fin_cases hr <;> simp_all

/-- Witness for C10: the `/public/v1/verify/:hash` route requires no
authentication, and a concrete public verification request against the
demo server leaves its state unchanged. -/
theorem public_verification_readonly_witness :
    ({ method := "GET", path := "/public/v1/verify/:hash",
       requiresAuth := false, handler := .publicVerifyEntry } : Route).requiresAuth
      = false
    ∧ (dispatch demoServer (.verifyEntry demoEntry1.entryHash) 3).1
        = demoServer := by
  refine ⟨?_, public_verification_readonly.2.1 demoServer demoEntry1.entryHash 3⟩
  exact public_verification_readonly.1
    { method := "GET", path := "/public/v1/verify/:hash",
      requiresAuth := false, handler := .publicVerifyEntry }
    (by simp [transparencyRoutes]) (Or.inl rfl)

end QLAFS
